import Mathlib

/-!
Shallow embedding of the QuantForge portfolio ledger, backtest loop and
portfolio metrics, translated from the Python sources
(`quantforge/qtypes/*.py`, `quantforge/backtesting/*.py`), together with
proofs settling the specification claims about them.

Modelling conventions:
* Python `float` prices, quantities and cash are modelled as `ℚ` (the code
  performs only field operations and comparisons on them).
* `datetime.date` values are modelled as `ℕ` day numbers (only order is used).
* Python `dict` is modelled as an association list with unique keys, which
  preserves the insertion-order semantics of `dict`.
* A method that can `raise` is modelled with `Except`; for the mutating
  `Portfolio` methods the error value also carries the state of the object at
  the moment the exception is raised, so that atomicity claims are faithful.
-/

deriving instance DecidableEq for Except

namespace QuantForge

/-- The `AssetClass` enum from `qtypes/assetclass.py`. -/
inductive AssetClass
  | EQUITY
  | BOND
  | COMMODITY
  | CURRENCY
  | DERIVATIVE
  | CRYPTOCURRENCY
deriving DecidableEq

/-- The `TradeableItem` frozen dataclass from `qtypes/tradeable_item.py`. -/
structure TradeableItem where
  id : String
  asset_class : AssetClass
deriving DecidableEq

/-- The `Transaction` frozen dataclass from `qtypes/transaction.py`. -/
structure Transaction where
  tradeable_item : TradeableItem
  quantity : ℚ
  price : ℚ
  date : ℕ
  transaction_cost : ℚ
deriving DecidableEq

/-- The validations of `Transaction.__post_init__`: every `Transaction`
object that exists in the Python program satisfies these. -/
def Transaction.valid (t : Transaction) : Prop :=
  t.quantity ≠ 0 ∧ 0 < t.price ∧ 0 ≤ t.transaction_cost

instance (t : Transaction) : Decidable t.valid := by
  unfold Transaction.valid; infer_instance

/-- Construction `Transaction(...)` including the `__post_init__`
validations, used where the code constructs a new `Transaction` at runtime. -/
def Transaction.make (item : TradeableItem) (quantity price : ℚ) (date : ℕ)
    (transaction_cost : ℚ) : Except String Transaction :=
  if quantity = 0 then .error "Transaction quantity cannot be zero."
  else if price ≤ 0 then .error "Transaction price must be positive."
  else if transaction_cost < 0 then .error "Transaction cost cannot be negative."
  else .ok { tradeable_item := item, quantity := quantity, price := price,
             date := date, transaction_cost := transaction_cost }

/-- The `PortfolioPosition` frozen dataclass from `qtypes/portfolio_position.py`. -/
structure PortfolioPosition where
  open_transaction : Transaction
  close_transaction : Option Transaction := none
deriving DecidableEq

/-- Property `PortfolioPosition.cost_basis`. -/
def PortfolioPosition.cost_basis (p : PortfolioPosition) : ℚ :=
  p.open_transaction.price * p.open_transaction.quantity
    + p.open_transaction.transaction_cost

/-- Property `PortfolioPosition.is_closed`. -/
def PortfolioPosition.is_closed (p : PortfolioPosition) : Bool :=
  p.close_transaction.isSome

/-- Property `PortfolioPosition.sale_proceeds`. -/
def PortfolioPosition.sale_proceeds (p : PortfolioPosition) : ℚ :=
  match p.close_transaction with
  | none => 0
  | some ct => ct.price * (-ct.quantity) - ct.transaction_cost

/-- Method `PortfolioPosition.realized_profit_loss`. -/
def PortfolioPosition.realized_profit_loss (p : PortfolioPosition) : ℚ :=
  match p.close_transaction with
  | none => 0
  | some _ => p.sale_proceeds - p.cost_basis

/-- Method `PortfolioPosition.position_value`. -/
def PortfolioPosition.position_value (p : PortfolioPosition) (price : ℚ) : ℚ :=
  if p.is_closed then 0 else price * p.open_transaction.quantity

/-- Method `PortfolioPosition.close`: validations in source order, then
`dataclasses.replace` on success. -/
def PortfolioPosition.close (p : PortfolioPosition) (ct : Transaction) :
    Except String PortfolioPosition :=
  if p.is_closed then .error "Position is already closed."
  else if ct.tradeable_item ≠ p.open_transaction.tradeable_item then
    .error "Close transaction must match open transaction."
  else if ct.date < p.open_transaction.date then
    .error "Close transaction date must be after open transaction date."
  else if ct.quantity ≠ -p.open_transaction.quantity then
    .error "Close transaction quantity must be the -ve open transaction quantity."
  else .ok { p with close_transaction := some ct }

/-- Association-list lookup, modelling Python `dict.get` / `d[k]` presence. -/
def alistGet {α β : Type} [DecidableEq α] : List (α × β) → α → Option β
  | [], _ => none
  | (k, v) :: rest, k' => if k = k' then some v else alistGet rest k'

/-- Association-list write, modelling `d[k] = v` (replaces in place if the
key is present, otherwise appends, preserving `dict` insertion order). -/
def alistSet {α β : Type} [DecidableEq α] : List (α × β) → α → β → List (α × β)
  | [], k, v => [(k, v)]
  | (k0, v0) :: rest, k, v =>
    if k0 = k then (k, v) :: rest else (k0, v0) :: alistSet rest k v

/-- Association-list key removal, modelling `del d[k]`. -/
def alistDelete {α β : Type} [DecidableEq α] : List (α × β) → α → List (α × β)
  | [], _ => []
  | (k0, v0) :: rest, k =>
    if k0 = k then rest else (k0, v0) :: alistDelete rest k

/-- Removal of the first occurrence of an equal element, modelling Python
`list.remove`. -/
def removeFirst {α : Type} [DecidableEq α] : List α → α → List α
  | [], _ => []
  | x :: xs, y => if x = y then xs else x :: removeFirst xs y

/-- The `Portfolio` class from `qtypes/portfolio.py` (the mutable ledger state). -/
structure Portfolio where
  cash : ℚ
  start_date : ℕ
  allow_margin : Bool
  allow_short : Bool
  allowed_tradeable_items : List TradeableItem
  closed_positions : List PortfolioPosition
  open_positions_by_tradeable_item : List (TradeableItem × List PortfolioPosition)
deriving DecidableEq

/-- Method `Portfolio.get_open_positions_by_item` (`dict.get(item, [])`). -/
def Portfolio.get_open_positions_by_item (p : Portfolio)
    (item : TradeableItem) : List PortfolioPosition :=
  (alistGet p.open_positions_by_tradeable_item item).getD []

/-- Method `Portfolio.can_trade`, translated branch by branch. -/
def Portfolio.can_trade (p : Portfolio) (t : Transaction) : Bool :=
  if t.tradeable_item ∉ p.allowed_tradeable_items then false
  else if (p.get_open_positions_by_item t.tradeable_item).any
      (fun pos => decide (pos.open_transaction.quantity = -t.quantity)) then true
  else if t.quantity < 0 then p.allow_short
  else if p.cash < t.price * t.quantity + t.transaction_cost then p.allow_margin
  else true

/-- Method `Portfolio.open_position`.  The error value carries the portfolio state
at the moment the exception is raised. -/
def Portfolio.open_position (p : Portfolio) (t : Transaction) :
    Except (String × Portfolio) (Portfolio × PortfolioPosition) :=
  if ¬ p.can_trade t then .error ("Transaction cannot be executed.", p)
  else
    let position : PortfolioPosition := { open_transaction := t }
    let existing := (alistGet p.open_positions_by_tradeable_item t.tradeable_item).getD []
    let m' := alistSet p.open_positions_by_tradeable_item t.tradeable_item
        (existing ++ [position])
    let cb := t.price * t.quantity + t.transaction_cost
    .ok ({ p with open_positions_by_tradeable_item := m', cash := p.cash - cb },
         position)

/-- Method `Portfolio.close_position`, translated statement by statement: the five
validations in source order, then the mutations (removal from the open map,
key deletion if the item's list became empty), then the construction of the
fresh close `Transaction` (whose `__post_init__` runs after the mutations),
then `position.close`, the append to `closed_positions` and the cash update.
The error value carries the portfolio state at the moment the exception is
raised. -/
def Portfolio.close_position (p : Portfolio) (position : PortfolioPosition)
    (ct : Transaction) :
    Except (String × Portfolio) (Portfolio × PortfolioPosition) :=
  if position.is_closed then .error ("Position is already closed.", p)
  else if ct.tradeable_item ≠ position.open_transaction.tradeable_item then
    .error ("Close transaction must match open transaction.", p)
  else if ct.date ≤ position.open_transaction.date then
    .error ("Close transaction date must be after open transaction date.", p)
  else if ct.quantity ≠ -position.open_transaction.quantity then
    .error ("Close transaction quantity must be the -ve open transaction quantity.", p)
  else
    match alistGet p.open_positions_by_tradeable_item
        position.open_transaction.tradeable_item with
    | none => .error ("KeyError", p)
    | some positions =>
      if position ∉ positions then
        .error ("Position not found in open positions.", p)
      else
        let remaining := removeFirst positions position
        let m' := alistSet p.open_positions_by_tradeable_item
            position.open_transaction.tradeable_item remaining
        let m'' := if remaining = [] then
            alistDelete m' position.open_transaction.tradeable_item else m'
        let p1 : Portfolio := { p with open_positions_by_tradeable_item := m'' }
        match Transaction.make position.open_transaction.tradeable_item
            (-position.open_transaction.quantity) ct.price ct.date
            ct.transaction_cost with
        | .error e => .error (e, p1)
        | .ok t =>
          match position.close t with
          | .error e => .error (e, p1)
          | .ok closed_position =>
            .ok ({ p1 with
                    closed_positions := p1.closed_positions ++ [closed_position],
                    cash := p1.cash + closed_position.sale_proceeds },
                 closed_position)

/-- The `PortfolioMetrics` state from `qtypes/portfolio_metrics.py` (the cached
returns series is derived data and not modelled). -/
structure PortfolioMetrics where
  start_date : ℕ
  initial_cash : ℚ
  value_history : List (ℕ × ℚ)
deriving DecidableEq

/-- Constructor `PortfolioMetrics.__init__`: rejects non-positive initial cash, then
seeds the history with `(start_date, initial_cash)`. -/
def PortfolioMetrics.init (p : Portfolio) : Except String PortfolioMetrics :=
  if p.cash ≤ 0 then
    .error "Initial portfolio cash must be positive for meaningful metrics."
  else
    .ok { start_date := p.start_date, initial_cash := p.cash,
          value_history := [(p.start_date, p.cash)] }

/-- Method `PortfolioMetrics.update`: append after the last date, overwrite the
last entry on an equal date, raise on an earlier date. -/
def PortfolioMetrics.update (m : PortfolioMetrics) (date : ℕ) (value : ℚ) :
    Except String PortfolioMetrics :=
  match m.value_history.getLast? with
  | none => .ok { m with value_history := m.value_history ++ [(date, value)] }
  | some last =>
    if last.1 < date then
      .ok { m with value_history := m.value_history ++ [(date, value)] }
    else if date = last.1 then
      .ok { m with value_history := m.value_history.dropLast ++ [(date, value)] }
    else
      .error "Dates must be added chronologically."

/-- The pandas row filter `~series.index.duplicated(keep='last')` of
`_get_values_series`: keep a row only if no later row has the same date. -/
def dedupKeepLast : List (ℕ × ℚ) → List (ℕ × ℚ)
  | [] => []
  | x :: xs =>
    if xs.any (fun y => decide (y.1 = x.1)) then dedupKeepLast xs
    else x :: dedupKeepLast xs

/-- Ordered insertion by date, helper for `sortByDate`. -/
def insertByDate (x : ℕ × ℚ) : List (ℕ × ℚ) → List (ℕ × ℚ)
  | [] => [x]
  | y :: ys => if x.1 ≤ y.1 then x :: y :: ys else y :: insertByDate x ys

/-- The pandas `series.sort_index()` of `_get_values_series` (dates are
distinct after deduplication, so any sort by date gives the same list). -/
def sortByDate : List (ℕ × ℚ) → List (ℕ × ℚ)
  | [] => []
  | x :: xs => insertByDate x (sortByDate xs)

/-- Method `PortfolioMetrics._get_values_series`: `None` on fewer than two history
rows, otherwise the date-deduplicated (keep last), date-sorted series. -/
def PortfolioMetrics.get_values_series (m : PortfolioMetrics) :
    Option (List (ℕ × ℚ)) :=
  if m.value_history.length < 2 then none
  else some (sortByDate (dedupKeepLast m.value_history))

/-- Tail of the pandas `cummax`, carrying the maximum so far. -/
def runningMaxAux (c : ℚ) : List ℚ → List ℚ
  | [] => []
  | v :: vs => max c v :: runningMaxAux (max c v) vs

/-- The pandas `series.cummax()`. -/
def runningMax : List ℚ → List ℚ
  | [] => []
  | v :: vs => v :: runningMaxAux v vs

/-- The pandas `series.min()` (pandas returns NaN on an empty series, modelled `none`). -/
def listMin : List ℚ → Option ℚ
  | [] => none
  | v :: vs => some (vs.foldl min v)

/-- The drawdown series `(series - cummax) / cummax.replace(0, nan)`: rows
whose running maximum is `0` become NaN and are skipped by `min`. -/
def drawdownSeries (values : List ℚ) : List ℚ :=
  (values.zip (runningMax values)).filterMap
    (fun q => if q.2 = 0 then none else some ((q.1 - q.2) / q.2))

/-- Method `PortfolioMetrics.calculate_max_drawdown`: `None` without a series of at
least two rows; an all-NaN minimum falls back to `0.0`. -/
def PortfolioMetrics.calculate_max_drawdown (m : PortfolioMetrics) : Option ℚ :=
  match m.get_values_series with
  | none => none
  | some s =>
    if s.length < 2 then none
    else
      match listMin (drawdownSeries (s.map Prod.snd)) with
      | none => some 0
      | some md => some md

/-- The drawdown formula exactly as the specification words it:
`(value - running_max(value)) / running_max(value)` over the whole series
(no NaN handling).  Stated from the spec, to be compared with
`drawdownSeries` from the source. -/
def drawdownFormula (values : List ℚ) : List ℚ :=
  (values.zip (runningMax values)).map (fun q => (q.1 - q.2) / q.2)

/-- The `DataRequirement` enum.  Its defining module
`strategies/data_requirement.py` is not in the provided sources; the member
list `TICKER`, `NEWS`, `OPTIONS`, `FUNDAMENTALS` is taken from this
repository's `tests/strategies/test_data_requirement.py` and the members
referenced by the sources. -/
inductive DataRequirement
  | TICKER
  | NEWS
  | OPTIONS
  | FUNDAMENTALS
deriving DecidableEq

/-- One row of a pandas frame as used by `create_masked_data`: a bar row's
index timestamp, and an option row's `last_updated` column. -/
structure DataRow where
  timestamp : ℕ
  last_updated : ℕ
deriving DecidableEq

/-- A pandas `DataFrame` as observed by `create_masked_data`: whether its
index is a `DatetimeIndex` named `timestamp`, whether it has a
`last_updated` column, and its rows. -/
structure DataFrame where
  has_timestamp_index : Bool
  has_last_updated_col : Bool
  rows : List DataRow
deriving DecidableEq

/-- The per-frame body of `create_masked_data`: `TICKER` frames are filtered
on the index timestamp, `OPTIONS` frames on the `last_updated` column, and
every other data requirement raises `NotImplementedError`. -/
def maskFrame (req : DataRequirement) (df : DataFrame) (cutoff : ℕ) :
    Except String DataFrame :=
  match req with
  | .TICKER =>
    if df.has_timestamp_index then
      .ok { df with rows := df.rows.filter (fun r => decide (r.timestamp ≤ cutoff)) }
    else .error "TICKER data does not have timestamp index"
  | .OPTIONS =>
    if df.has_last_updated_col then
      .ok { df with rows := df.rows.filter (fun r => decide (r.last_updated ≤ cutoff)) }
    else .error "OPTIONS data does not have last_updated column"
  | _ => .error "Masking not implemented for data requirement"

/-- Inner loop of `create_masked_data` over one item's requirement map. -/
def maskItemData (cutoff : ℕ) :
    List (DataRequirement × DataFrame) →
    Except String (List (DataRequirement × DataFrame))
  | [] => .ok []
  | (req, df) :: rest =>
    match maskFrame req df cutoff with
    | .error e => .error e
    | .ok df' =>
      match maskItemData cutoff rest with
      | .error e => .error e
      | .ok rest' => .ok ((req, df') :: rest')

/-- Function `create_masked_data` from `backtesting/masked_data.py`. -/
def create_masked_data
    (input_data : List (TradeableItem × List (DataRequirement × DataFrame)))
    (cutoff : ℕ) :
    Except String (List (TradeableItem × List (DataRequirement × DataFrame))) :=
  match input_data with
  | [] => .ok []
  | (item, item_data) :: rest =>
    match maskItemData cutoff item_data with
    | .error e => .error e
    | .ok item_data' =>
      match create_masked_data rest cutoff with
      | .error e => .error e
      | .ok rest' => .ok ((item, item_data') :: rest')

/-- Control-flow skeleton of `backtest_loop` in
`backtesting/backtest_runner.py` around the strategy invocation.  The
external collaborators are parameters: `hasNextData d'` models the
truthiness of `extract_ohlc_data(input_data, portfolio, d')` and
`strategyExecute d` models `strategy.execute(masked_data, next_day_data)`
for day `d` (the valuation block recovers from its own errors locally and
is independent of this claim's control flow).  The result is the list of
days on which `strategy.execute` was invoked; as in the source there is no
handler around `strategy.execute`, so its exception propagates. -/
def backtest_loop (hasNextData : ℕ → Bool)
    (strategyExecute : ℕ → Except String Unit) :
    List ℕ → Except String (List ℕ)
  | [] => .ok []
  | [_] => .ok []
  | d :: next :: rest =>
    if hasNextData next then
      match strategyExecute d with
      | .error e => .error e
      | .ok _ =>
        match backtest_loop hasNextData strategyExecute (next :: rest) with
        | .error e => .error e
        | .ok l => .ok (d :: l)
    else backtest_loop hasNextData strategyExecute (next :: rest)

/-- A single ledger operation on a `Portfolio`. -/
inductive LedgerOp
  | openOp : Transaction → LedgerOp
  | closeOp : PortfolioPosition → Transaction → LedgerOp

/-- Run a sequence of ledger operations, stopping at the first failure. -/
def runOps : Portfolio → List LedgerOp → Except (String × Portfolio) Portfolio
  | p, [] => .ok p
  | p, LedgerOp.openOp t :: rest =>
    match p.open_position t with
    | .error e => .error e
    | .ok (p', _) => runOps p' rest
  | p, LedgerOp.closeOp pos ct :: rest =>
    match p.close_position pos ct with
    | .error e => .error e
    | .ok (p', _) => runOps p' rest

/-- The specification's cash delta of one ledger operation: an open costs
`price*quantity + transaction_cost`, a close pays
`close.price*(-close.quantity) - close.transaction_cost`. -/
def opDelta : LedgerOp → ℚ
  | .openOp t => -(t.price * t.quantity + t.transaction_cost)
  | .closeOp _ ct => ct.price * (-ct.quantity) - ct.transaction_cost

/-- A concrete equity instrument. -/
def AAPL : TradeableItem := { id := "AAPL", asset_class := .EQUITY }

/-- A fresh portfolio with cash 100000 allowing only `AAPL`. -/
def P0 : Portfolio :=
  { cash := 100000, start_date := 0, allow_margin := false,
    allow_short := false, allowed_tradeable_items := [AAPL],
    closed_positions := [], open_positions_by_tradeable_item := [] }

/-- Opening transaction: 10 shares at 150 with cost 10 on day 10. -/
def Topen : Transaction :=
  { tradeable_item := AAPL, quantity := 10, price := 150, date := 10,
    transaction_cost := 10 }

/-- The position created by opening `Topen`. -/
def POS0 : PortfolioPosition := { open_transaction := Topen }

/-- Closing transaction: -10 shares at 170 with cost 10 on day 46. -/
def Tclose : Transaction :=
  { tradeable_item := AAPL, quantity := -10, price := 170, date := 46,
    transaction_cost := 10 }

/-- State `P0` after opening `Topen`: cash 98490, one open position. -/
def P1 : Portfolio :=
  { cash := 98490, start_date := 0, allow_margin := false,
    allow_short := false, allowed_tradeable_items := [AAPL],
    closed_positions := [], open_positions_by_tradeable_item := [(AAPL, [POS0])] }

/-- State `P1` after closing `POS0` with `Tclose`: cash 98490 + 1690 = 100180,
one closed position, empty open map (spec §8 Scenario A quotes 100190 for
this state, but 98490 + 1690 = 100180). -/
def P2 : Portfolio :=
  { cash := 100180, start_date := 0, allow_margin := false,
    allow_short := false, allowed_tradeable_items := [AAPL],
    closed_positions :=
      [{ open_transaction := Topen,
         close_transaction := some Tclose }],
    open_positions_by_tradeable_item := [] }

/-- The specification's decision table for `can_trade`, stated from the
spec's words (to be compared with `Portfolio.can_trade` from the source):
the item must be allowed, and then either an exactly offsetting open
position exists, or a short open is covered by `allow_short`, or an
unaffordable long open is covered by `allow_margin`, or the long open is
affordable. -/
def can_trade_table (p : Portfolio) (t : Transaction) : Prop :=
  t.tradeable_item ∈ p.allowed_tradeable_items ∧
    ((∃ pos ∈ p.get_open_positions_by_item t.tradeable_item,
        pos.open_transaction.quantity = -t.quantity) ∨
     (t.quantity < 0 ∧ p.allow_short = true) ∨
     (0 < t.quantity ∧ p.cash < t.price * t.quantity + t.transaction_cost ∧
        p.allow_margin = true) ∨
     (0 < t.quantity ∧ ¬ p.cash < t.price * t.quantity + t.transaction_cost))

/-- C3 witness: a short open (`quantity = -5`) on a portfolio with
`allow_short = false` and no offsetting open position. -/
def Tshort : Transaction :=
  { tradeable_item := AAPL, quantity := -5, price := 150, date := 3,
    transaction_cost := 0 }

/-- C8 counterexample data: a close transaction dated the same day as the
open of `POS0`. -/
def TcloseSameDay : Transaction :=
  { tradeable_item := AAPL, quantity := -10, price := 160, date := 10,
    transaction_cost := 0 }

/-- The Scenario A operation sequence: open 10 at 150 cost 10, close at
170 cost 10. -/
def OPS : List LedgerOp := [.openOp Topen, .closeOp POS0 Tclose]

/-- The fresh close transaction built inside `Portfolio.close_position`. -/
def closeTxOf (pos : PortfolioPosition) (ct : Transaction) : Transaction :=
  { tradeable_item := pos.open_transaction.tradeable_item,
    quantity := -pos.open_transaction.quantity,
    price := ct.price, date := ct.date,
    transaction_cost := ct.transaction_cost }

/-- The closed position produced by a successful `Portfolio.close_position`. -/
def closedPosOf (pos : PortfolioPosition) (ct : Transaction) : PortfolioPosition :=
  { pos with close_transaction := some (closeTxOf pos ct) }

/-- The portfolio state after a successful `Portfolio.close_position` when
the item's tracked open positions were `positions`. -/
def afterCloseState (p : Portfolio) (pos : PortfolioPosition)
    (ct : Transaction) (positions : List PortfolioPosition) : Portfolio :=
  { p with
    open_positions_by_tradeable_item :=
      if removeFirst positions pos = [] then
        alistDelete
          (alistSet p.open_positions_by_tradeable_item
            pos.open_transaction.tradeable_item (removeFirst positions pos))
          pos.open_transaction.tradeable_item
      else
        alistSet p.open_positions_by_tradeable_item
          pos.open_transaction.tradeable_item (removeFirst positions pos),
    closed_positions := p.closed_positions ++ [closedPosOf pos ct],
    cash := p.cash + (closedPosOf pos ct).sale_proceeds }

/-- A position that is already closed, used for error-path witnesses. -/
def POSC : PortfolioPosition :=
  { open_transaction := Topen, close_transaction := some Tclose }

/-- The metrics state produced by `PortfolioMetrics(P0)`. -/
def M0 : PortfolioMetrics :=
  { start_date := 0, initial_cash := 100000, value_history := [(0, 100000)] }

/-- State `M0` after a same-day update with value 50: the seeded first entry has
been overwritten. -/
def M0b : PortfolioMetrics :=
  { start_date := 0, initial_cash := 100000, value_history := [(0, 50)] }

/-- State `M0` after an update on day 1 with value 42. -/
def M1 : PortfolioMetrics :=
  { start_date := 0, initial_cash := 100000,
    value_history := [(0, 100000), (1, 42)] }

/-- The reachability relation on metrics states: `UpdatesAfter d0 m0 m`
holds when `m` arises from `m0` by a sequence of successful `update` calls
whose dates are all strictly after `d0`. -/
inductive UpdatesAfter (d0 : ℕ) : PortfolioMetrics → PortfolioMetrics → Prop
  | refl (m : PortfolioMetrics) : UpdatesAfter d0 m m
  | step {m m' m'' : PortfolioMetrics} (d : ℕ) (v : ℚ) :
      UpdatesAfter d0 m m' → d0 < d → m'.update d v = .ok m'' →
      UpdatesAfter d0 m m''

/-- A ticker frame with bar rows on days 1 and 5. -/
def DFT : DataFrame :=
  { has_timestamp_index := true, has_last_updated_col := false,
    rows := [{ timestamp := 1, last_updated := 0 },
             { timestamp := 5, last_updated := 0 }] }

/-- A one-item input holding only the ticker frame `DFT`. -/
def INPUT1 : List (TradeableItem × List (DataRequirement × DataFrame)) :=
  [(AAPL, [(DataRequirement.TICKER, DFT)])]

/-- A one-item input holding a `NEWS` frame (no masking rule exists). -/
def INPUT2 : List (TradeableItem × List (DataRequirement × DataFrame)) :=
  [(AAPL, [(DataRequirement.NEWS, DFT)])]

/-- The masked result of `INPUT1` at cutoff 3: only the day-1 bar remains. -/
def OUT1 : List (TradeableItem × List (DataRequirement × DataFrame)) :=
  [(AAPL, [(DataRequirement.TICKER,
    { has_timestamp_index := true, has_last_updated_col := false,
      rows := [{ timestamp := 1, last_updated := 0 }] })])]

/-- The strategy stub used by the C6 counterexample: it raises on day 1. -/
def failingExec : ℕ → Except String Unit :=
  fun d => if d = 1 then .error "strategy failure" else .ok ()

/-- A three-day metrics history: 100, then a dip to 80, then 120. -/
def M2 : PortfolioMetrics :=
  { start_date := 0, initial_cash := 100,
    value_history := [(0, 100), (1, 80), (2, 120)] }

/-- An `any` over open positions is the existence of an exactly offsetting
open position. -/
lemma any_offset_iff (l : List PortfolioPosition) (q : ℚ) :
    (l.any (fun pos => decide (pos.open_transaction.quantity = -q)) = true) ↔
      ∃ pos ∈ l, pos.open_transaction.quantity = -q := by
  simp [List.any_eq_true]

/-- C3: `can_trade` implements the spec's decision table (for the
transactions that can exist in the program, i.e. nonzero quantity), and a
transaction with `can_trade` false cannot be opened: `open_position` raises
the trading-not-permitted error instead of succeeding. -/
theorem can_trade_decision_table (p : Portfolio) (t : Transaction)
    (hq : t.quantity ≠ 0) :
    (p.can_trade t = true ↔ can_trade_table p t)
    ∧ (p.can_trade t = false →
        ∀ r, p.open_position t ≠ .ok r) := by
  constructor
  · unfold Portfolio.can_trade can_trade_table
    by_cases h1 : t.tradeable_item ∈ p.allowed_tradeable_items
    · by_cases h2 : (p.get_open_positions_by_item t.tradeable_item).any
          (fun pos => decide (pos.open_transaction.quantity = -t.quantity)) = true
      · rw [any_offset_iff] at h2
        simp [h1, h2]
      · rw [any_offset_iff] at h2
        by_cases h3 : t.quantity < 0
        · have h3' : ¬ (0:ℚ) < t.quantity := fun hx => absurd (lt_trans hx h3) (lt_irrefl _)
          simp [h1, h2, h3, h3', any_offset_iff]
        · have h4 : 0 < t.quantity := lt_of_le_of_ne (not_lt.mp h3) (Ne.symm hq)
          by_cases h5 : p.cash < t.price * t.quantity + t.transaction_cost
          · simp [h1, h2, h3, h4, h5, any_offset_iff]
          · simp [h1, h2, h3, h4, h5, any_offset_iff]
    · simp [h1]
  · intro hfalse r
    simp [Portfolio.open_position, hfalse]

/-- C3 witness: the decision table at the concrete short transaction
`Tshort` on `P0`; in particular `can_trade` is `false` there and opening it
fails, the spec's Scenario B. -/
theorem can_trade_decision_table_witness :
    Tshort.quantity ≠ 0
    ∧ ((P0.can_trade Tshort = true ↔ can_trade_table P0 Tshort)
        ∧ (P0.can_trade Tshort = false → ∀ r, P0.open_position Tshort ≠ .ok r))
    ∧ P0.can_trade Tshort = false := by
  refine ⟨by norm_num [Tshort], can_trade_decision_table P0 Tshort (by norm_num [Tshort]), ?_⟩
  norm_num [Portfolio.can_trade, Portfolio.get_open_positions_by_item, alistGet,
    P0, Tshort, AAPL]

/-- C8 counterexample: `PortfolioPosition.close` ACCEPTS a close dated the
same day as the open (its check is `close.date < open.date`, not `<=`), so
the claim that a same-day close is rejected at the position level is false. -/
theorem position_close_sameday_accepted :
    POS0.close TcloseSameDay =
      .ok { open_transaction := Topen, close_transaction := some TcloseSameDay }
    ∧ TcloseSameDay.date = Topen.date := by
  constructor
  · norm_num [PortfolioPosition.close, PortfolioPosition.is_closed, POS0,
      Topen, TcloseSameDay, AAPL]
  · rfl

/-- C8 (amended): `PortfolioPosition.close` fails exactly when the position
is already closed, or the instrument differs, or the close date is STRICTLY
EARLIER than the open date, or the quantity is not the exact negation of
the open quantity; a close dated the same day as the open is accepted at
the position level (the strict same-day rejection lives only in
`Portfolio.close_position`). -/
theorem position_close_fails_iff (pos : PortfolioPosition) (ct : Transaction) :
    (∃ e, pos.close ct = .error e) ↔
      (pos.is_closed = true ∨
       ct.tradeable_item ≠ pos.open_transaction.tradeable_item ∨
       ct.date < pos.open_transaction.date ∨
       ct.quantity ≠ -pos.open_transaction.quantity) := by
  unfold PortfolioPosition.close
  split_ifs with h1 h2 h3 h4 <;> simp_all

/-- A successful `open_position` decreases cash by exactly the cost basis
`price*quantity + transaction_cost`. -/
lemma open_position_cash {p p' : Portfolio} {t : Transaction}
    {pos : PortfolioPosition} (h : p.open_position t = .ok (p', pos)) :
    p'.cash = p.cash - (t.price * t.quantity + t.transaction_cost) := by
  unfold Portfolio.open_position at h
  split_ifs at h
  simp only [Except.ok.injEq, Prod.mk.injEq] at h
  obtain ⟨hA, _⟩ := h
  subst hA
  rfl

/-- A successful `close_position` increases cash by exactly the sale
proceeds `close.price*(-close.quantity) - close.transaction_cost`. -/
lemma close_position_cash {p p' : Portfolio} {pos cp : PortfolioPosition}
    {ct : Transaction} (h : p.close_position pos ct = .ok (p', cp)) :
    p'.cash = p.cash + (ct.price * (-ct.quantity) - ct.transaction_cost) := by
  unfold Portfolio.close_position at h
  split_ifs at h with h1 h2 h3 h4
  rcases hma : alistGet p.open_positions_by_tradeable_item
      pos.open_transaction.tradeable_item with _ | positions
  · rw [hma] at h
    exact Except.noConfusion h
  · rw [hma] at h
    dsimp only at h
    by_cases hmem : pos ∈ positions
    · rw [if_neg (not_not_intro hmem)] at h
      unfold Transaction.make at h
      rw [not_not] at h4
      by_cases hq0' : -pos.open_transaction.quantity = 0
      · rw [if_pos hq0'] at h
        exact Except.noConfusion h
      · rw [if_neg hq0'] at h
        by_cases hpr : ct.price ≤ 0
        · rw [if_pos hpr] at h
          exact Except.noConfusion h
        · rw [if_neg hpr] at h
          by_cases hco : ct.transaction_cost < 0
          · rw [if_pos hco] at h
            exact Except.noConfusion h
          · rw [if_neg hco] at h
            dsimp only at h
            unfold PortfolioPosition.close at h
            rw [if_neg h1] at h
            rw [if_neg (not_not_intro rfl)] at h
            have hdate : ¬ ct.date < pos.open_transaction.date :=
              fun hlt => h3 (Nat.le_of_lt hlt)
            rw [if_neg hdate] at h
            rw [if_neg (not_not_intro rfl)] at h
            dsimp only at h
            simp only [Except.ok.injEq, Prod.mk.injEq] at h
            obtain ⟨hA, hB⟩ := h
            subst hA
            subst hB
            simp [PortfolioPosition.sale_proceeds, h4]
    · rw [if_pos hmem] at h
      exact Except.noConfusion h

/-- C1: cash conservation over any successful sequence of ledger
operations: the final cash is the initial cash plus the sum of operation
deltas (minus each open's cost basis, plus each close's sale proceeds). -/
theorem cash_conservation (ops : List LedgerOp) (p p' : Portfolio)
    (h : runOps p ops = .ok p') :
    p'.cash = p.cash + (ops.map opDelta).sum := by
  induction ops generalizing p with
  | nil =>
    unfold runOps at h
    simp only [Except.ok.injEq] at h
    subst h
    simp
  | cons op rest ih =>
    cases op with
    | openOp t =>
      unfold runOps at h
      rcases ho : p.open_position t with e | ⟨pm, posm⟩
      · rw [ho] at h
        exact Except.noConfusion h
      · rw [ho] at h
        have := ih pm h
        rw [this, open_position_cash ho]
        simp [opDelta]
        ring
    | closeOp pos ct =>
      unfold runOps at h
      rcases ho : p.close_position pos ct with e | ⟨pm, posm⟩
      · rw [ho] at h
        exact Except.noConfusion h
      · rw [ho] at h
        have := ih pm h
        rw [this, close_position_cash ho]
        simp [opDelta]
        ring

/-- C1 witness: running Scenario A from `P0` succeeds and the final cash
100180 equals `100000 - 1510 + 1690`, the initial cash plus the operation
deltas. -/
theorem cash_conservation_witness :
    runOps P0 OPS = .ok P2
    ∧ P2.cash = P0.cash + (OPS.map opDelta).sum := by
  have hrun : runOps P0 OPS = .ok P2 := by
    have h1 : P0.open_position Topen = .ok (P1, POS0) := by
      norm_num [Portfolio.open_position, Portfolio.can_trade,
        Portfolio.get_open_positions_by_item, alistGet, alistSet, P0, P1, POS0,
        Topen, AAPL]
    have h2 : P1.close_position POS0 Tclose =
        .ok (P2, { open_transaction := Topen, close_transaction := some Tclose }) := by
      norm_num [Portfolio.close_position, PortfolioPosition.close,
        PortfolioPosition.is_closed, PortfolioPosition.sale_proceeds,
        Transaction.make, alistGet, alistSet, alistDelete, removeFirst,
        P1, P2, POS0, Topen, Tclose, AAPL]
    simp only [OPS, runOps, h1, h2]
  exact ⟨hrun, cash_conservation OPS P0 P2 hrun⟩

section AlistLemmas

variable {α β : Type} [DecidableEq α]

lemma alistGet_none_iff (m : List (α × β)) (k : α) :
    alistGet m k = none ↔ k ∉ m.map Prod.fst := by
  induction m with
  | nil => simp [alistGet]
  | cons x rest ih =>
    obtain ⟨k0, v0⟩ := x
    by_cases h : k0 = k
    · subst h
      simp [alistGet]
    · have h' : ¬ k = k0 := fun hx => h hx.symm
      simp [alistGet, h, ih, h']

lemma alistGet_set_self (m : List (α × β)) (k : α) (v : β) :
    alistGet (alistSet m k v) k = some v := by
  induction m with
  | nil => simp [alistGet, alistSet]
  | cons x rest ih =>
    obtain ⟨k0, v0⟩ := x
    by_cases h : k0 = k
    · simp [alistSet, alistGet, h]
    · simp [alistSet, alistGet, h, ih]

lemma alistGet_set_ne (m : List (α × β)) (k : α) (v : β) (k' : α)
    (h : k' ≠ k) : alistGet (alistSet m k v) k' = alistGet m k' := by
  have h' : ¬ k = k' := fun hx => h hx.symm
  induction m with
  | nil => simp [alistGet, alistSet, h']
  | cons x rest ih =>
    obtain ⟨k0, v0⟩ := x
    by_cases h0 : k0 = k
    · subst h0
      simp [alistSet, alistGet, h']
    · simp [alistSet, alistGet, h0, ih]

lemma alistGet_delete_ne (m : List (α × β)) (k k' : α) (h : k' ≠ k) :
    alistGet (alistDelete m k) k' = alistGet m k' := by
  induction m with
  | nil => simp [alistDelete]
  | cons x rest ih =>
    obtain ⟨k0, v0⟩ := x
    by_cases h0 : k0 = k
    · subst h0
      have h' : ¬ k0 = k' := fun hx => h hx.symm
      simp [alistDelete, alistGet, h']
    · simp [alistDelete, alistGet, h0, ih]

lemma alistSet_keys_sub (m : List (α × β)) (k : α) (v : β) :
    ∀ x ∈ (alistSet m k v).map Prod.fst, x = k ∨ x ∈ m.map Prod.fst := by
  induction m with
  | nil =>
    intro x hx
    simp [alistSet] at hx
    exact Or.inl hx
  | cons y rest ih =>
    obtain ⟨k0, v0⟩ := y
    intro x hx
    by_cases h0 : k0 = k
    · subst h0
      have hstep : alistSet ((k0, v0) :: rest) k0 v = (k0, v) :: rest := by
        simp [alistSet]
      rw [hstep, List.map_cons, List.mem_cons] at hx
      rcases hx with hx | hx
      · exact Or.inl hx
      · exact Or.inr (List.mem_cons_of_mem _ hx)
    · have hstep : alistSet ((k0, v0) :: rest) k v = (k0, v0) :: alistSet rest k v := by
        simp [alistSet, h0]
      rw [hstep, List.map_cons, List.mem_cons] at hx
      rcases hx with hx | hx
      · exact Or.inr (by simp [hx])
      · rcases ih x hx with hc | hc
        · exact Or.inl hc
        · exact Or.inr (by simp [hc])

lemma alistSet_keys_nodup (m : List (α × β)) (k : α) (v : β)
    (h : (m.map Prod.fst).Nodup) :
    ((alistSet m k v).map Prod.fst).Nodup := by
  induction m with
  | nil => simp [alistSet]
  | cons y rest ih =>
    obtain ⟨k0, v0⟩ := y
    simp only [List.map_cons, List.nodup_cons] at h
    by_cases h0 : k0 = k
    · subst h0
      simpa [alistSet] using h
    · have hstep : alistSet ((k0, v0) :: rest) k v = (k0, v0) :: alistSet rest k v := by
        simp [alistSet, h0]
      rw [hstep, List.map_cons, List.nodup_cons]
      refine ⟨fun hx => ?_, ih h.2⟩
      rcases alistSet_keys_sub rest k v k0 hx with hc | hc
      · exact h0 hc
      · exact h.1 hc

lemma alistGet_delete_self (m : List (α × β)) (k : α)
    (h : (m.map Prod.fst).Nodup) : alistGet (alistDelete m k) k = none := by
  induction m with
  | nil => simp [alistDelete, alistGet]
  | cons x rest ih =>
    obtain ⟨k0, v0⟩ := x
    simp only [List.map_cons, List.nodup_cons] at h
    by_cases h0 : k0 = k
    · subst h0
      simp only [alistDelete, if_pos rfl]
      exact (alistGet_none_iff rest k0).mpr h.1
    · simp [alistDelete, alistGet, h0, ih h.2]

end AlistLemmas

/-- Evaluation of `close_position` when every check passes and the
transactions are valid. -/
lemma close_position_eval_ok (p : Portfolio) (pos : PortfolioPosition)
    (ct : Transaction) (positions : List PortfolioPosition)
    (h1 : ¬ pos.is_closed = true)
    (h2 : ct.tradeable_item = pos.open_transaction.tradeable_item)
    (h3 : pos.open_transaction.date < ct.date)
    (h4 : ct.quantity = -pos.open_transaction.quantity)
    (hma : alistGet p.open_positions_by_tradeable_item
        pos.open_transaction.tradeable_item = some positions)
    (hmem : pos ∈ positions)
    (hq : pos.open_transaction.quantity ≠ 0)
    (hpr : 0 < ct.price)
    (hco : 0 ≤ ct.transaction_cost) :
    p.close_position pos ct = .ok (afterCloseState p pos ct positions,
      closedPosOf pos ct) := by
  unfold Portfolio.close_position
  rw [if_neg h1]
  rw [if_neg (not_not_intro h2)]
  rw [if_neg (not_le.mpr h3)]
  rw [if_neg (not_not_intro h4)]
  rw [hma]
  dsimp only
  rw [if_neg (not_not_intro hmem)]
  unfold Transaction.make
  rw [if_neg (fun h0 => hq (neg_eq_zero.mp h0))]
  rw [if_neg (not_le.mpr hpr)]
  rw [if_neg (not_lt.mpr hco)]
  dsimp only
  unfold PortfolioPosition.close
  rw [if_neg h1]
  rw [if_neg (not_not_intro rfl)]
  rw [if_neg (Nat.not_lt.mpr (Nat.le_of_lt h3))]
  rw [if_neg (not_not_intro rfl)]
  rfl

/-- A successful `close_position` implies every check passed, and
characterizes the returned position and portfolio. -/
lemma close_position_ok_elim {p p' : Portfolio} {pos cp : PortfolioPosition}
    {ct : Transaction} (h : p.close_position pos ct = .ok (p', cp)) :
    ∃ positions,
      pos.is_closed = false ∧
      ct.tradeable_item = pos.open_transaction.tradeable_item ∧
      pos.open_transaction.date < ct.date ∧
      ct.quantity = -pos.open_transaction.quantity ∧
      alistGet p.open_positions_by_tradeable_item
        pos.open_transaction.tradeable_item = some positions ∧
      pos ∈ positions ∧
      cp = closedPosOf pos ct ∧
      p' = afterCloseState p pos ct positions := by
  unfold Portfolio.close_position at h
  split_ifs at h with h1 h2 h3 h4
  rcases hma : alistGet p.open_positions_by_tradeable_item
      pos.open_transaction.tradeable_item with _ | positions
  · rw [hma] at h
    exact Except.noConfusion h
  · rw [hma] at h
    dsimp only at h
    by_cases hmem : pos ∈ positions
    · rw [if_neg (not_not_intro hmem)] at h
      unfold Transaction.make at h
      rw [not_not] at h2 h4
      by_cases hq0' : -pos.open_transaction.quantity = 0
      · rw [if_pos hq0'] at h
        exact Except.noConfusion h
      · rw [if_neg hq0'] at h
        by_cases hpr : ct.price ≤ 0
        · rw [if_pos hpr] at h
          exact Except.noConfusion h
        · rw [if_neg hpr] at h
          by_cases hco : ct.transaction_cost < 0
          · rw [if_pos hco] at h
            exact Except.noConfusion h
          · rw [if_neg hco] at h
            dsimp only at h
            unfold PortfolioPosition.close at h
            rw [if_neg h1] at h
            rw [if_neg (not_not_intro rfl)] at h
            have hdate : ¬ ct.date < pos.open_transaction.date :=
              fun hlt => h3 (Nat.le_of_lt hlt)
            rw [if_neg hdate] at h
            rw [if_neg (not_not_intro rfl)] at h
            dsimp only at h
            simp only [Except.ok.injEq, Prod.mk.injEq] at h
            obtain ⟨hA, hB⟩ := h
            refine ⟨positions, by simpa using h1, h2, not_le.mp h3, h4, rfl,
              hmem, hB.symm, ?_⟩
            rw [← hA]
            rfl
    · rw [if_pos hmem] at h
      exact Except.noConfusion h

/-- C10: ledger-operation atomicity: whenever `open_position` or
`close_position` raises, the portfolio state observed at the moment of the
raise is exactly the state before the call (every failing validation runs
before the first mutation; given valid transactions, nothing after the
first mutation can fail). -/
theorem ledger_atomicity (p : Portfolio) (pos : PortfolioPosition)
    (t ct : Transaction) (e : String) (p' : Portfolio)
    (hov : pos.open_transaction.valid) (hcv : ct.valid) :
    (p.open_position t = .error (e, p') → p' = p)
    ∧ (p.close_position pos ct = .error (e, p') → p' = p) := by
  constructor
  · intro h
    unfold Portfolio.open_position at h
    split_ifs at h
    simp only [Except.error.injEq, Prod.mk.injEq] at h
    exact h.2.symm
  · intro h
    unfold Portfolio.close_position at h
    split_ifs at h with h1 h2 h3 h4
    · simp only [Except.error.injEq, Prod.mk.injEq] at h
      exact h.2.symm
    · simp only [Except.error.injEq, Prod.mk.injEq] at h
      exact h.2.symm
    · simp only [Except.error.injEq, Prod.mk.injEq] at h
      exact h.2.symm
    · simp only [Except.error.injEq, Prod.mk.injEq] at h
      exact h.2.symm
    rcases hma : alistGet p.open_positions_by_tradeable_item
        pos.open_transaction.tradeable_item with _ | positions
    · rw [hma] at h
      simp only [Except.error.injEq, Prod.mk.injEq] at h
      exact h.2.symm
    · rw [hma] at h
      dsimp only at h
      by_cases hmem : pos ∈ positions
      · rw [not_not] at h2 h4
        have heval := close_position_eval_ok p pos ct positions h1 h2
          (not_le.mp h3) h4 hma hmem hov.1 hcv.2.1 hcv.2.2
        unfold Portfolio.close_position at heval
        rw [if_neg h1, if_neg (not_not_intro h2), if_neg h3,
          if_neg (not_not_intro h4), hma] at heval
        dsimp only at heval
        rw [if_neg (not_not_intro hmem)] at heval
        rw [if_neg (not_not_intro hmem)] at h
        rw [heval] at h
        exact Except.noConfusion h
      · rw [if_pos hmem] at h
        simp only [Except.error.injEq, Prod.mk.injEq] at h
        exact h.2.symm

/-- C4: `close_position` raises exactly when the position is already
closed, the instrument differs, the close is not strictly later than the
open, the quantity is not the exact negation of the open quantity, or the
position is not among the item's currently tracked open positions; on
success it removes the position from the open map (deleting the item's
entry if its list becomes empty), appends the closed position to
`closed_positions` and increases cash by the sale proceeds.  The two
validity hypotheses record `Transaction.__post_init__`, and `hkeys` the
uniqueness of `dict` keys. -/
theorem close_position_raises_iff (p : Portfolio) (pos : PortfolioPosition)
    (ct : Transaction)
    (hov : pos.open_transaction.valid) (hcv : ct.valid)
    (hkeys : (p.open_positions_by_tradeable_item.map Prod.fst).Nodup) :
    ((∃ ep, p.close_position pos ct = .error ep) ↔
      (pos.is_closed = true ∨
       ct.tradeable_item ≠ pos.open_transaction.tradeable_item ∨
       ct.date ≤ pos.open_transaction.date ∨
       ct.quantity ≠ -pos.open_transaction.quantity ∨
       pos ∉ p.get_open_positions_by_item pos.open_transaction.tradeable_item))
    ∧ (∀ p' cp, p.close_position pos ct = .ok (p', cp) →
        cp = closedPosOf pos ct
        ∧ p'.closed_positions = p.closed_positions ++ [cp]
        ∧ p'.cash = p.cash + cp.sale_proceeds
        ∧ p'.get_open_positions_by_item pos.open_transaction.tradeable_item =
            removeFirst
              (p.get_open_positions_by_item pos.open_transaction.tradeable_item)
              pos
        ∧ (∀ item, item ≠ pos.open_transaction.tradeable_item →
            p'.get_open_positions_by_item item = p.get_open_positions_by_item item)
        ∧ (removeFirst
              (p.get_open_positions_by_item pos.open_transaction.tradeable_item)
              pos = [] →
            alistGet p'.open_positions_by_tradeable_item
              pos.open_transaction.tradeable_item = none)) := by
  constructor
  · constructor
    · rintro ⟨ep, he⟩
      by_contra hnd
      push_neg at hnd
      obtain ⟨hc1, hc2, hc3, hc4, hc5⟩ := hnd
      rcases halist : alistGet p.open_positions_by_tradeable_item
          pos.open_transaction.tradeable_item with _ | positions
      · unfold Portfolio.get_open_positions_by_item at hc5
        rw [halist] at hc5
        simp at hc5
      · unfold Portfolio.get_open_positions_by_item at hc5
        rw [halist] at hc5
        have heval := close_position_eval_ok p pos ct positions
          (by simp [hc1]) hc2 hc3 hc4 halist hc5 hov.1 hcv.2.1 hcv.2.2
        rw [heval] at he
        exact Except.noConfusion he
    · intro hdisj
      rcases hv : p.close_position pos ct with ep | r
      · exact ⟨ep, rfl⟩
      · obtain ⟨p', cp⟩ := r
        obtain ⟨positions, e1, e2, e3, e4, e5, e6, _, _⟩ :=
          close_position_ok_elim hv
        exfalso
        rcases hdisj with hd | hd | hd | hd | hd
        · rw [e1] at hd
          exact Bool.noConfusion hd
        · exact hd e2
        · exact absurd hd (not_le.mpr e3)
        · exact hd e4
        · apply hd
          unfold Portfolio.get_open_positions_by_item
          rw [e5]
          exact e6
  · intro p' cp h
    obtain ⟨positions, e1, e2, e3, e4, e5, e6, e7, e8⟩ :=
      close_position_ok_elim h
    have hopen : p.get_open_positions_by_item
        pos.open_transaction.tradeable_item = positions := by
      unfold Portfolio.get_open_positions_by_item
      rw [e5]
      rfl
    subst e8
    have hkeys' : ((alistSet p.open_positions_by_tradeable_item
        pos.open_transaction.tradeable_item
        (removeFirst positions pos)).map Prod.fst).Nodup :=
      alistSet_keys_nodup _ _ _ hkeys
    refine ⟨e7, by simp [afterCloseState, e7], by simp [afterCloseState, e7],
      ?_, ?_, ?_⟩
    · rw [hopen]
      unfold Portfolio.get_open_positions_by_item afterCloseState
      by_cases hrem : removeFirst positions pos = []
      · rw [if_pos hrem]
        dsimp only
        rw [alistGet_delete_self _ _ hkeys', hrem]
        rfl
      · rw [if_neg hrem]
        dsimp only
        rw [alistGet_set_self]
        rfl
    · intro item hitem
      unfold Portfolio.get_open_positions_by_item afterCloseState
      by_cases hrem : removeFirst positions pos = []
      · rw [if_pos hrem]
        dsimp only
        rw [alistGet_delete_ne _ _ _ hitem, alistGet_set_ne _ _ _ _ hitem]
      · rw [if_neg hrem]
        dsimp only
        rw [alistGet_set_ne _ _ _ _ hitem]
    · intro hrem
      rw [hopen] at hrem
      unfold afterCloseState
      dsimp only
      rw [if_pos hrem]
      exact alistGet_delete_self _ _ hkeys'

/-- C4 witness: the raises-iff characterization at the concrete portfolio
`P1` holding `POS0`, with the valid close `Tclose`. -/
theorem close_position_raises_iff_witness :
    POS0.open_transaction.valid ∧ Tclose.valid
    ∧ ((P1.open_positions_by_tradeable_item.map Prod.fst).Nodup)
    ∧ (((∃ ep, P1.close_position POS0 Tclose = .error ep) ↔
        (POS0.is_closed = true ∨
         Tclose.tradeable_item ≠ POS0.open_transaction.tradeable_item ∨
         Tclose.date ≤ POS0.open_transaction.date ∨
         Tclose.quantity ≠ -POS0.open_transaction.quantity ∨
         POS0 ∉ P1.get_open_positions_by_item POS0.open_transaction.tradeable_item))
      ∧ (∀ p' cp, P1.close_position POS0 Tclose = .ok (p', cp) →
          cp = closedPosOf POS0 Tclose
          ∧ p'.closed_positions = P1.closed_positions ++ [cp]
          ∧ p'.cash = P1.cash + cp.sale_proceeds
          ∧ p'.get_open_positions_by_item POS0.open_transaction.tradeable_item =
              removeFirst
                (P1.get_open_positions_by_item POS0.open_transaction.tradeable_item)
                POS0
          ∧ (∀ item, item ≠ POS0.open_transaction.tradeable_item →
              p'.get_open_positions_by_item item =
                P1.get_open_positions_by_item item)
          ∧ (removeFirst
                (P1.get_open_positions_by_item POS0.open_transaction.tradeable_item)
                POS0 = [] →
              alistGet p'.open_positions_by_tradeable_item
                POS0.open_transaction.tradeable_item = none))) := by
  refine ⟨?_, ?_, ?_, close_position_raises_iff P1 POS0 Tclose ?_ ?_ ?_⟩
  · norm_num [Transaction.valid, POS0, Topen]
  · norm_num [Transaction.valid, Tclose]
  · simp [P1]
  · norm_num [Transaction.valid, POS0, Topen]
  · norm_num [Transaction.valid, Tclose]
  · simp [P1]

/-- C10 witness: atomicity applied at a concrete failing call: closing the
already-closed `POSC` on `P2` raises while reporting the state `P2`
unchanged. -/
theorem ledger_atomicity_witness :
    POSC.open_transaction.valid ∧ Tclose.valid
    ∧ P2.close_position POSC Tclose = .error ("Position is already closed.", P2)
    ∧ ((P2.open_position Tshort =
          .error ("Position is already closed.", P2) → P2 = P2)
      ∧ (P2.close_position POSC Tclose =
          .error ("Position is already closed.", P2) → P2 = P2)) := by
  refine ⟨?_, ?_, ?_,
    ledger_atomicity P2 POSC Tshort Tclose "Position is already closed." P2 ?_ ?_⟩
  · norm_num [Transaction.valid, POSC, Topen]
  · norm_num [Transaction.valid, Tclose]
  · norm_num [Portfolio.close_position, PortfolioPosition.is_closed, POSC, P2]
  · norm_num [Transaction.valid, POSC, Topen]
  · norm_num [Transaction.valid, Tclose]

/-- A list with a known last element is its `dropLast` plus that element. -/
lemma getLast?_decomp {l : List (ℕ × ℚ)} {last : ℕ × ℚ}
    (hl : l.getLast? = some last) : l = l.dropLast ++ [last] := by
  have hne : l ≠ [] := by
    intro h
    rw [h] at hl
    exact Option.noConfusion hl
  have h1 : l.getLast hne = last := by
    rw [List.getLast?_eq_getLast l hne] at hl
    injection hl
  rw [← h1]
  exact (List.dropLast_append_getLast hne).symm

/-- In a date-strictly-increasing history, every entry but the last is
strictly earlier than the last. -/
lemma dropLast_lt_getLast {l : List (ℕ × ℚ)} {last : ℕ × ℚ}
    (hs : l.Pairwise (fun a b => a.1 < b.1))
    (hl : l.getLast? = some last) :
    ∀ q ∈ l.dropLast, q.1 < last.1 := by
  intro q hq
  have hd := getLast?_decomp hl
  rw [hd] at hs
  have := (List.pairwise_append.mp hs).2.2
  exact this q hq last (by simp)

/-- In a date-strictly-increasing history, every entry is at most the last
date. -/
lemma mem_le_getLast {l : List (ℕ × ℚ)} {last : ℕ × ℚ}
    (hs : l.Pairwise (fun a b => a.1 < b.1))
    (hl : l.getLast? = some last) :
    ∀ q ∈ l, q.1 ≤ last.1 := by
  intro q hq
  rw [getLast?_decomp hl] at hq
  rcases List.mem_append.mp hq with h | h
  · exact Nat.le_of_lt (dropLast_lt_getLast hs hl q h)
  · simp at h
    rw [h]

/-- C5: `PortfolioMetrics.update` appends on a strictly later date,
overwrites the last entry on an equal date, raises on an earlier date; and
two successive same-date updates leave exactly one entry for that date,
holding the second value. -/
theorem metrics_update_spec (m : PortfolioMetrics) (d : ℕ) (v1 v2 : ℚ)
    (last : ℕ × ℚ)
    (hlast : m.value_history.getLast? = some last)
    (hSorted : m.value_history.Pairwise (fun a b => a.1 < b.1)) :
    (last.1 < d →
      m.update d v1 =
        .ok { m with value_history := m.value_history ++ [(d, v1)] })
    ∧ (d = last.1 →
      m.update d v1 =
        .ok { m with value_history := m.value_history.dropLast ++ [(d, v1)] })
    ∧ (d < last.1 → ∃ e, m.update d v1 = .error e)
    ∧ (last.1 ≤ d → ∀ m1 m2, m.update d v1 = .ok m1 → m1.update d v2 = .ok m2 →
        m2.value_history.filter (fun q => q.1 == d) = [(d, v2)]) := by
  refine ⟨?_, ?_, ?_, ?_⟩
  · intro h
    unfold PortfolioMetrics.update
    rw [hlast]
    dsimp only
    rw [if_pos h]
  · intro h
    unfold PortfolioMetrics.update
    rw [hlast]
    dsimp only
    rw [if_neg (by omega), if_pos h]
  · intro h
    unfold PortfolioMetrics.update
    rw [hlast]
    dsimp only
    rw [if_neg (by omega), if_neg (by omega)]
    exact ⟨_, rfl⟩
  · intro hle m1 m2 h1 h2
    have hfilter_nil : m.value_history.dropLast.filter (fun q => q.1 == d) = [] := by
      rw [List.filter_eq_nil_iff]
      intro q hq
      have := dropLast_lt_getLast hSorted hlast q hq
      simp only [beq_iff_eq]
      omega
    rcases Nat.lt_or_ge last.1 d with hlt | hge
    · -- first update appends
      have e1 : m.update d v1 =
          .ok { m with value_history := m.value_history ++ [(d, v1)] } := by
        unfold PortfolioMetrics.update
        rw [hlast]
        dsimp only
        rw [if_pos hlt]
      rw [e1] at h1
      simp only [Except.ok.injEq] at h1
      subst h1
      have hl1 : (m.value_history ++ [(d, v1)]).getLast? = some (d, v1) :=
        List.getLast?_concat _
      have e2 : m2.value_history = m.value_history ++ [(d, v2)] := by
        unfold PortfolioMetrics.update at h2
        rw [hl1] at h2
        dsimp only at h2
        rw [if_neg (by omega), if_pos rfl] at h2
        simp only [Except.ok.injEq] at h2
        rw [← h2, List.dropLast_concat]
      rw [e2, List.filter_append]
      have hnil : m.value_history.filter (fun q => q.1 == d) = [] := by
        rw [List.filter_eq_nil_iff]
        intro q hq
        have := mem_le_getLast hSorted hlast q hq
        simp only [beq_iff_eq]
        omega
      rw [hnil]
      simp
    · -- `last.1 ≤ d ≤ last.1`: same-date overwrite twice
      have heq : d = last.1 := Nat.le_antisymm (by omega) hle
      have e1 : m.update d v1 =
          .ok { m with value_history := m.value_history.dropLast ++ [(d, v1)] } := by
        unfold PortfolioMetrics.update
        rw [hlast]
        dsimp only
        rw [if_neg (by omega), if_pos heq]
      rw [e1] at h1
      simp only [Except.ok.injEq] at h1
      subst h1
      have hl1 : (m.value_history.dropLast ++ [(d, v1)]).getLast? = some (d, v1) :=
        List.getLast?_concat _
      have e2 : m2.value_history = m.value_history.dropLast ++ [(d, v2)] := by
        unfold PortfolioMetrics.update at h2
        rw [hl1] at h2
        dsimp only at h2
        rw [if_neg (by omega), if_pos rfl] at h2
        simp only [Except.ok.injEq] at h2
        rw [← h2, List.dropLast_concat]
      rw [e2, List.filter_append, hfilter_nil]
      simp

/-- C5 witness: `metrics_update_spec` at the concrete metrics `M0`
(history `[(0, 100000)]`), date 1, values 5 then 7. -/
theorem metrics_update_spec_witness :
    M0.value_history.getLast? = some (0, 100000)
    ∧ M0.value_history.Pairwise (fun a b => a.1 < b.1)
    ∧ ((0 < 1 →
        M0.update 1 5 =
          .ok { M0 with value_history := M0.value_history ++ [(1, 5)] })
      ∧ (1 = 0 →
        M0.update 1 5 =
          .ok { M0 with value_history := M0.value_history.dropLast ++ [(1, 5)] })
      ∧ (1 < 0 → ∃ e, M0.update 1 5 = .error e)
      ∧ (0 ≤ 1 → ∀ m1 m2, M0.update 1 5 = .ok m1 → m1.update 1 7 = .ok m2 →
          m2.value_history.filter (fun q => q.1 == 1) = [(1, 7)])) :=
  ⟨rfl, List.pairwise_singleton _ _,
   metrics_update_spec M0 1 5 7 (0, 100000) rfl (List.pairwise_singleton _ _)⟩

/-- C7 counterexample: a successful same-day `update` on the freshly
initialized metrics overwrites the seeded first entry, so the first entry
of `value_history` is no longer `(start_date, initial_cash)`. -/
theorem first_entry_overwrite_counterexample :
    PortfolioMetrics.init P0 = .ok M0
    ∧ M0.update P0.start_date 50 = .ok M0b
    ∧ M0b.value_history.head? ≠ some (P0.start_date, P0.cash) := by
  refine ⟨?_, ?_, ?_⟩
  · unfold PortfolioMetrics.init
    rw [if_neg (by norm_num [P0])]
    rfl
  · rfl
  · intro h
    simp only [M0b, P0, List.head?_cons, Option.some.injEq, Prod.mk.injEq] at h
    norm_num at h

/-- C7 (amended): the first entry of `value_history` is always
`(start_date, initial_cash)` for every sequence of successful updates whose
dates are strictly after `start_date`; a same-day update on the start date
overwrites that seeded entry's value. -/
theorem first_entry_invariant (p : Portfolio) (m0 m : PortfolioMetrics)
    (hinit : PortfolioMetrics.init p = .ok m0)
    (hreach : UpdatesAfter p.start_date m0 m) :
    m.value_history.head? = some (p.start_date, p.cash) := by
  have hm0 : m0.value_history = [(p.start_date, p.cash)] := by
    unfold PortfolioMetrics.init at hinit
    split_ifs at hinit
    simp only [Except.ok.injEq] at hinit
    rw [← hinit]
  induction hreach with
  | refl => rw [hm0]; rfl
  | step d v hr hd hup ih =>
    rename_i mprev mnext
    have ihp := ih
    rcases hvh : mprev.value_history with _ | ⟨x, xs⟩
    · rw [hvh] at ihp
      exact Option.noConfusion ihp
    · have hx : x = (p.start_date, p.cash) := by
        rw [hvh] at ihp
        simpa using ihp
      rcases hlast : mprev.value_history.getLast? with _ | last
      · rw [hvh] at hlast
        simp at hlast
      · unfold PortfolioMetrics.update at hup
        rw [hlast] at hup
        dsimp only at hup
        split_ifs at hup with hlt heq
        · simp only [Except.ok.injEq] at hup
          rw [← hup]
          dsimp only
          rw [hvh]
          simp [hx]
        · -- same-date overwrite: the history cannot be a singleton, since
          -- the last date equals `d > start_date` while the head date is
          -- `start_date`
          rcases hxs : xs with _ | ⟨y, ys⟩
          · rw [hxs] at hvh
            rw [hvh] at hlast
            simp only [List.getLast?_singleton, Option.some.injEq] at hlast
            rw [← hlast, hx] at heq
            simp at heq
            omega
          · simp only [Except.ok.injEq] at hup
            rw [← hup]
            dsimp only
            rw [hvh, hxs]
            simp [hx]

/-- C7 witness for the amended invariant: initialize from `P0`, update on
day 1 (strictly after the start date 0); the first entry is still
`(0, 100000)`. -/
theorem first_entry_invariant_witness :
    PortfolioMetrics.init P0 = .ok M0
    ∧ UpdatesAfter P0.start_date M0 M1
    ∧ M1.value_history.head? = some (P0.start_date, P0.cash) := by
  have hinit : PortfolioMetrics.init P0 = .ok M0 := by
    unfold PortfolioMetrics.init
    rw [if_neg (by norm_num [P0])]
    rfl
  have hstep : M0.update 1 42 = .ok M1 := by rfl
  have hreach : UpdatesAfter P0.start_date M0 M1 :=
    UpdatesAfter.step 1 42 (UpdatesAfter.refl M0) (by norm_num [P0]) hstep
  exact ⟨hinit, hreach, first_entry_invariant P0 M0 M1 hinit hreach⟩

/-- Rows surviving `maskFrame` respect the cutoff for their requirement
type. -/
lemma maskFrame_ok_rows {req : DataRequirement} {df df' : DataFrame}
    {cutoff : ℕ} (h : maskFrame req df cutoff = .ok df') :
    ∀ row ∈ df'.rows,
      (req = DataRequirement.TICKER → row.timestamp ≤ cutoff) ∧
      (req = DataRequirement.OPTIONS → row.last_updated ≤ cutoff) := by
  cases req <;> unfold maskFrame at h <;> dsimp only at h
  case TICKER =>
    split_ifs at h
    simp only [Except.ok.injEq] at h
    intro row hrow
    rw [← h] at hrow
    simp only [List.mem_filter, decide_eq_true_eq] at hrow
    exact ⟨fun _ => hrow.2, fun hc => DataRequirement.noConfusion hc⟩
  case OPTIONS =>
    split_ifs at h
    simp only [Except.ok.injEq] at h
    intro row hrow
    rw [← h] at hrow
    simp only [List.mem_filter, decide_eq_true_eq] at hrow
    exact ⟨fun hc => DataRequirement.noConfusion hc, fun _ => hrow.2⟩
  case NEWS => exact Except.noConfusion h
  case FUNDAMENTALS => exact Except.noConfusion h

/-- Function `maskFrame` on any requirement other than `TICKER` and `OPTIONS`
raises `NotImplementedError`. -/
lemma maskFrame_unsupported {req : DataRequirement}
    (h1 : req ≠ DataRequirement.TICKER) (h2 : req ≠ DataRequirement.OPTIONS)
    (df : DataFrame) (cutoff : ℕ) :
    maskFrame req df cutoff =
      .error "Masking not implemented for data requirement" := by
  cases req
  · exact absurd rfl h1
  · rfl
  · exact absurd rfl h2
  · rfl

/-- Rows surviving `maskItemData` respect the cutoff. -/
lemma maskItemData_rows {cutoff : ℕ}
    {l l' : List (DataRequirement × DataFrame)}
    (h : maskItemData cutoff l = .ok l') :
    ∀ rf ∈ l', ∀ row ∈ (rf.2).rows,
      (rf.1 = DataRequirement.TICKER → row.timestamp ≤ cutoff) ∧
      (rf.1 = DataRequirement.OPTIONS → row.last_updated ≤ cutoff) := by
  induction l generalizing l' with
  | nil =>
    unfold maskItemData at h
    simp only [Except.ok.injEq] at h
    subst h
    simp
  | cons hd rest ih =>
    obtain ⟨req, df⟩ := hd
    unfold maskItemData at h
    rcases hm : maskFrame req df cutoff with e | df'
    · rw [hm] at h
      exact Except.noConfusion h
    · rw [hm] at h
      dsimp only at h
      rcases hr : maskItemData cutoff rest with e | rest'
      · rw [hr] at h
        exact Except.noConfusion h
      · rw [hr] at h
        dsimp only at h
        simp only [Except.ok.injEq] at h
        subst h
        intro rf hrf
        rcases List.mem_cons.mp hrf with heq | hmem
        · subst heq
          exact maskFrame_ok_rows hm
        · exact ih hr rf hmem

/-- If some requirement in the item map is neither `TICKER` nor `OPTIONS`,
`maskItemData` fails. -/
lemma maskItemData_err {cutoff : ℕ} {l : List (DataRequirement × DataFrame)}
    {req : DataRequirement} {df : DataFrame} (hmem : (req, df) ∈ l)
    (h1 : req ≠ DataRequirement.TICKER) (h2 : req ≠ DataRequirement.OPTIONS) :
    ∃ e, maskItemData cutoff l = .error e := by
  induction l with
  | nil => simp at hmem
  | cons hd rest ih =>
    obtain ⟨req0, df0⟩ := hd
    rcases List.mem_cons.mp hmem with heq | hmem'
    · have hr0 : req = req0 := congrArg Prod.fst heq
      have hf0 : df = df0 := congrArg Prod.snd heq
      subst hr0
      subst hf0
      refine ⟨"Masking not implemented for data requirement", ?_⟩
      unfold maskItemData
      rw [maskFrame_unsupported h1 h2]
    · rcases hm : maskFrame req0 df0 cutoff with e | df'
      · refine ⟨e, ?_⟩
        unfold maskItemData
        rw [hm]
      · obtain ⟨e, he⟩ := ih hmem'
        refine ⟨e, ?_⟩
        unfold maskItemData
        rw [hm]
        dsimp only
        rw [he]

/-- C2: no-lookahead masking.  On success every retained `TICKER` row has
timestamp at most the cutoff and every retained `OPTIONS` row has
`last_updated` at most the cutoff; and if the input holds any other
data-requirement type, `create_masked_data` fails with an error instead of
passing the data through. -/
theorem create_masked_data_spec
    (input : List (TradeableItem × List (DataRequirement × DataFrame)))
    (cutoff : ℕ) :
    (∀ out, create_masked_data input cutoff = .ok out →
      ∀ q ∈ out, ∀ rf ∈ q.2, ∀ row ∈ (rf.2).rows,
        (rf.1 = DataRequirement.TICKER → row.timestamp ≤ cutoff)
        ∧ (rf.1 = DataRequirement.OPTIONS → row.last_updated ≤ cutoff))
    ∧ (∀ item ld req df, (item, ld) ∈ input → (req, df) ∈ ld →
        req ≠ DataRequirement.TICKER → req ≠ DataRequirement.OPTIONS →
        ∃ e, create_masked_data input cutoff = .error e) := by
  constructor
  · intro out h
    induction input generalizing out with
    | nil =>
      unfold create_masked_data at h
      simp only [Except.ok.injEq] at h
      subst h
      simp
    | cons hd rest ih =>
      obtain ⟨item, ld⟩ := hd
      unfold create_masked_data at h
      rcases hm : maskItemData cutoff ld with e | ld'
      · rw [hm] at h
        exact Except.noConfusion h
      · rw [hm] at h
        dsimp only at h
        rcases hr : create_masked_data rest cutoff with e | rest'
        · rw [hr] at h
          exact Except.noConfusion h
        · rw [hr] at h
          dsimp only at h
          simp only [Except.ok.injEq] at h
          subst h
          intro q hq
          rcases List.mem_cons.mp hq with heq | hmem
          · subst heq
            exact maskItemData_rows hm
          · exact ih rest' hr q hmem
  · intro item ld req df hmem hrf h1 h2
    induction input with
    | nil => simp at hmem
    | cons hd rest ih =>
      obtain ⟨item0, ld0⟩ := hd
      rcases List.mem_cons.mp hmem with heq | hmem'
      · have hld : ld0 = ld := by
          injection heq with hi hl
          exact hl.symm
        subst hld
        obtain ⟨e, he⟩ := maskItemData_err hrf h1 h2
        refine ⟨e, ?_⟩
        unfold create_masked_data
        rw [he]
      · rcases hm : maskItemData cutoff ld0 with e | ld'
        · refine ⟨e, ?_⟩
          unfold create_masked_data
          rw [hm]
        · obtain ⟨e, he⟩ := ih hmem'
          refine ⟨e, ?_⟩
          unfold create_masked_data
          rw [hm]
          dsimp only
          rw [he]

/-- C2 witness: masking `INPUT1` at cutoff 3 succeeds with every retained
row within the cutoff, and masking the `NEWS` input fails. -/
theorem create_masked_data_spec_witness :
    create_masked_data INPUT1 3 = .ok OUT1
    ∧ (∀ q ∈ OUT1, ∀ rf ∈ q.2, ∀ row ∈ (rf.2).rows,
        (rf.1 = DataRequirement.TICKER → row.timestamp ≤ 3)
        ∧ (rf.1 = DataRequirement.OPTIONS → row.last_updated ≤ 3))
    ∧ (∃ e, create_masked_data INPUT2 3 = .error e) := by
  refine ⟨rfl, (create_masked_data_spec INPUT1 3).1 OUT1 rfl, ?_⟩
  exact (create_masked_data_spec INPUT2 3).2 AAPL [(DataRequirement.NEWS, DFT)]
    DataRequirement.NEWS DFT (by simp [INPUT2]) (by simp)
    (by simp) (by simp)

/-- C6 counterexample: a strategy error on day 1 of three trading days
propagates out of `backtest_loop` — the loop ABORTS instead of treating the
day as no-trade and continuing (with a never-failing strategy the same loop
returns successfully, having executed days 1 and 2). -/
theorem backtest_loop_strategy_error_aborts :
    backtest_loop (fun _ => true) failingExec [1, 2, 3] =
      .error "strategy failure"
    ∧ backtest_loop (fun _ => true) (fun _ => .ok ()) [1, 2, 3] = .ok [1, 2] := by
  constructor
  · rfl
  · rfl

/-- C6 (amended): an error raised by a day's `strategy.execute` is NOT
caught at the loop level: `backtest_loop` propagates it and the remaining
trading dates are not processed (only the top-level CLI handler outside the
loop catches it). -/
theorem backtest_loop_error_propagates (d next : ℕ) (rest : List ℕ)
    (hasNextData : ℕ → Bool) (ex : ℕ → Except String Unit) (e : String)
    (hdata : hasNextData next = true) (herr : ex d = .error e) :
    backtest_loop hasNextData ex (d :: next :: rest) = .error e := by
  unfold backtest_loop
  rw [if_pos hdata, herr]

/-- C6 witness: the propagation theorem at the concrete three-day run of
the counterexample. -/
theorem backtest_loop_error_propagates_witness :
    (fun (_ : ℕ) => true) 2 = true
    ∧ failingExec 1 = .error "strategy failure"
    ∧ backtest_loop (fun _ => true) failingExec [1, 2, 3] =
        .error "strategy failure" :=
  ⟨rfl, rfl,
   backtest_loop_error_propagates 1 2 [3] (fun _ => true) failingExec
     "strategy failure" rfl rfl⟩

/-- Deduplication is the identity on a date-strictly-increasing history. -/
lemma dedupKeepLast_eq_self {l : List (ℕ × ℚ)}
    (h : l.Pairwise (fun a b => a.1 < b.1)) : dedupKeepLast l = l := by
  induction l with
  | nil => rfl
  | cons x xs ih =>
    rw [List.pairwise_cons] at h
    have hany : ¬ (xs.any (fun y => decide (y.1 = x.1)) = true) := by
      rw [List.any_eq_true]
      rintro ⟨y, hy, hdec⟩
      have := h.1 y hy
      simp only [decide_eq_true_eq] at hdec
      omega
    unfold dedupKeepLast
    rw [if_neg hany, ih h.2]

/-- Inserting below every element is a `cons`. -/
lemma insertByDate_le {x : ℕ × ℚ} {l : List (ℕ × ℚ)}
    (hle : ∀ y ∈ l, x.1 ≤ y.1) : insertByDate x l = x :: l := by
  cases l with
  | nil => rfl
  | cons y ys =>
    unfold insertByDate
    rw [if_pos (hle y (List.mem_cons_self y ys))]

/-- Sorting is the identity on a date-sorted history. -/
lemma sortByDate_eq_self {l : List (ℕ × ℚ)}
    (h : l.Pairwise (fun a b => a.1 ≤ b.1)) : sortByDate l = l := by
  induction l with
  | nil => rfl
  | cons x xs ih =>
    rw [List.pairwise_cons] at h
    unfold sortByDate
    rw [ih h.2, insertByDate_le h.1]

lemma zip_runningMaxAux_bounds (vs : List ℚ) :
    ∀ (c : ℚ), ∀ q ∈ vs.zip (runningMaxAux c vs), q.1 ≤ q.2 ∧ c ≤ q.2 := by
  induction vs with
  | nil =>
    intro c q hq
    simp [runningMaxAux] at hq
  | cons v vs ih =>
    intro c q hq
    have hz : (v :: vs).zip (runningMaxAux c (v :: vs)) =
        (v, max c v) :: vs.zip (runningMaxAux (max c v) vs) := rfl
    rw [hz] at hq
    rcases List.mem_cons.mp hq with rfl | hq'
    · exact ⟨le_max_right c v, le_max_left c v⟩
    · obtain ⟨h1, h2⟩ := ih (max c v) q hq'
      exact ⟨h1, le_trans (le_max_left c v) h2⟩

/-- Every pair of the value series zipped with its running maximum has the
value below the maximum, and the maximum at least the first value. -/
lemma zip_runningMax_bounds (v : ℚ) (vs : List ℚ) :
    ∀ q ∈ (v :: vs).zip (runningMax (v :: vs)), q.1 ≤ q.2 ∧ v ≤ q.2 := by
  intro q hq
  have hz : (v :: vs).zip (runningMax (v :: vs)) =
      (v, v) :: vs.zip (runningMaxAux v vs) := rfl
  rw [hz] at hq
  rcases List.mem_cons.mp hq with rfl | hq'
  · exact ⟨le_refl v, le_refl v⟩
  · exact zip_runningMaxAux_bounds vs v q hq'

lemma zip_aux_eq_iff (vs : List ℚ) (c : ℚ) :
    (∀ q ∈ vs.zip (runningMaxAux c vs), q.1 = q.2) ↔
      List.Chain' (· ≤ ·) (c :: vs) := by
  induction vs generalizing c with
  | nil => simp [runningMaxAux]
  | cons v vs ih =>
    have hz : (v :: vs).zip (runningMaxAux c (v :: vs)) =
        (v, max c v) :: vs.zip (runningMaxAux (max c v) vs) := rfl
    rw [hz, List.chain'_cons]
    constructor
    · intro h
      have h1 : v = max c v := h (v, max c v) (List.mem_cons_self _ _)
      have hcv : c ≤ v := max_eq_right_iff.mp h1.symm
      refine ⟨hcv, ?_⟩
      have htail : ∀ q ∈ vs.zip (runningMaxAux (max c v) vs), q.1 = q.2 :=
        fun q hq => h q (List.mem_cons_of_mem _ hq)
      rw [max_eq_right hcv] at htail
      exact (ih v).mp htail
    · rintro ⟨hcv, hch⟩
      intro q hq
      rw [max_eq_right hcv] at hq
      rcases List.mem_cons.mp hq with rfl | hq'
      · rfl
      · exact (ih v).mpr hch q hq'

/-- The value series equals its running maximum pointwise exactly when it
is non-decreasing. -/
lemma zip_runningMax_eq_iff (v : ℚ) (vs : List ℚ) :
    (∀ q ∈ (v :: vs).zip (runningMax (v :: vs)), q.1 = q.2) ↔
      List.Chain' (· ≤ ·) (v :: vs) := by
  have hz : (v :: vs).zip (runningMax (v :: vs)) =
      (v, v) :: vs.zip (runningMaxAux v vs) := rfl
  rw [hz]
  constructor
  · intro h
    exact (zip_aux_eq_iff vs v).mp (fun q hq => h q (List.mem_cons_of_mem _ hq))
  · intro h q hq
    rcases List.mem_cons.mp hq with rfl | hq'
    · rfl
    · exact (zip_aux_eq_iff vs v).mpr h q hq'

lemma foldl_min_le_init (vs : List ℚ) : ∀ v : ℚ, vs.foldl min v ≤ v := by
  induction vs with
  | nil => intro v; exact le_refl v
  | cons w ws ih =>
    intro v
    exact le_trans (ih (min v w)) (min_le_left v w)

lemma foldl_min_le_mem (vs : List ℚ) : ∀ v : ℚ, ∀ y ∈ vs, vs.foldl min v ≤ y := by
  induction vs with
  | nil =>
    intro v y hy
    simp at hy
  | cons w ws ih =>
    intro v y hy
    rcases List.mem_cons.mp hy with rfl | hy'
    · exact le_trans (foldl_min_le_init ws (min v y)) (min_le_right v y)
    · exact ih (min v w) y hy'

lemma foldl_min_mem (vs : List ℚ) :
    ∀ v : ℚ, vs.foldl min v = v ∨ vs.foldl min v ∈ vs := by
  induction vs with
  | nil => intro v; exact Or.inl rfl
  | cons w ws ih =>
    intro v
    rcases ih (min v w) with h | h
    · rcases min_choice v w with hm | hm
      · left
        rw [List.foldl_cons, h, hm]
      · right
        rw [List.foldl_cons, h, hm]
        exact List.mem_cons_self w ws
    · right
      exact List.mem_cons_of_mem _ h

/-- Function `listMin` returns a member that is a lower bound. -/
lemma listMin_spec {l : List ℚ} {x : ℚ} (h : listMin l = some x) :
    x ∈ l ∧ ∀ y ∈ l, x ≤ y := by
  cases l with
  | nil => exact Option.noConfusion h
  | cons v vs =>
    unfold listMin at h
    simp only [Option.some.injEq] at h
    subst h
    constructor
    · rcases foldl_min_mem vs v with h | h
      · rw [h]
        exact List.mem_cons_self v vs
      · exact List.mem_cons_of_mem _ h
    · intro y hy
      rcases List.mem_cons.mp hy with rfl | hy'
      · exact foldl_min_le_init vs y
      · exact foldl_min_le_mem vs v y hy'

/-- When no running maximum is zero, the NaN-skipping drawdown computation
is the plain drawdown formula. -/
lemma filterMap_cond_eq_map (l : List (ℚ × ℚ)) (h : ∀ q ∈ l, q.2 ≠ 0) :
    l.filterMap (fun q => if q.2 = 0 then none else some ((q.1 - q.2) / q.2)) =
      l.map (fun q => (q.1 - q.2) / q.2) := by
  induction l with
  | nil => rfl
  | cons x xs ih =>
    rw [List.filterMap_cons, if_neg (h x (List.mem_cons_self x xs)), List.map_cons]
    rw [ih (fun q hq => h q (List.mem_cons_of_mem _ hq))]

/-- Core of the max-drawdown argument on a value series with positive
first value: the NaN-skipping minimum exists, equals the spec's formula,
is nonpositive, and vanishes exactly on non-decreasing series. -/
lemma drawdown_core (v : ℚ) (vs : List ℚ) (hpos : 0 < v) :
    ∃ md, listMin (drawdownSeries (v :: vs)) = some md
      ∧ listMin (drawdownFormula (v :: vs)) = some md
      ∧ md ≤ 0
      ∧ (md = 0 ↔ List.Chain' (· ≤ ·) (v :: vs)) := by
  have hb := zip_runningMax_bounds v vs
  have hnz : ∀ q ∈ (v :: vs).zip (runningMax (v :: vs)), q.2 ≠ 0 :=
    fun q hq => ne_of_gt (lt_of_lt_of_le hpos (hb q hq).2)
  have heqf : drawdownSeries (v :: vs) = drawdownFormula (v :: vs) := by
    unfold drawdownSeries drawdownFormula
    exact filterMap_cond_eq_map _ hnz
  have hzc : (v :: vs).zip (runningMax (v :: vs)) =
      (v, v) :: vs.zip (runningMaxAux v vs) := rfl
  have hform : drawdownFormula (v :: vs) =
      ((v - v) / v) ::
        (vs.zip (runningMaxAux v vs)).map (fun q => (q.1 - q.2) / q.2) := by
    unfold drawdownFormula
    rw [hzc, List.map_cons]
  have hmin : listMin (drawdownFormula (v :: vs)) =
      some (((vs.zip (runningMaxAux v vs)).map
        (fun q => (q.1 - q.2) / q.2)).foldl min ((v - v) / v)) := by
    rw [hform]
    rfl
  set md := ((vs.zip (runningMaxAux v vs)).map
    (fun q => (q.1 - q.2) / q.2)).foldl min ((v - v) / v) with hmd
  have hspec := listMin_spec hmin
  have hall_nonpos : ∀ d ∈ drawdownFormula (v :: vs), d ≤ 0 := by
    intro d hd
    unfold drawdownFormula at hd
    obtain ⟨q, hq, rfl⟩ := List.mem_map.mp hd
    have h1 := (hb q hq).1
    have h2 := lt_of_lt_of_le hpos (hb q hq).2
    rw [div_nonpos_iff]
    right
    exact ⟨sub_nonpos.mpr h1, le_of_lt h2⟩
  refine ⟨md, by rw [heqf, hmin], hmin, hall_nonpos md hspec.1, ?_⟩
  constructor
  · intro h0
    apply (zip_runningMax_eq_iff v vs).mp
    intro q hq
    have hmem : (q.1 - q.2) / q.2 ∈ drawdownFormula (v :: vs) := by
      unfold drawdownFormula
      exact List.mem_map_of_mem _ hq
    have hge : (0:ℚ) ≤ (q.1 - q.2) / q.2 := h0 ▸ hspec.2 _ hmem
    have hle : (q.1 - q.2) / q.2 ≤ 0 := hall_nonpos _ hmem
    have hz : (q.1 - q.2) / q.2 = 0 := le_antisymm hle hge
    rcases div_eq_zero_iff.mp hz with hc | hc
    · exact sub_eq_zero.mp hc
    · exact absurd hc (hnz q hq)
  · intro hchain
    have hall := (zip_runningMax_eq_iff v vs).mpr hchain
    have hzero : ∀ d ∈ drawdownFormula (v :: vs), d = 0 := by
      intro d hd
      unfold drawdownFormula at hd
      obtain ⟨q, hq, rfl⟩ := List.mem_map.mp hd
      rw [hall q hq, sub_self, zero_div]
    exact hzero md hspec.1

/-- C9: with a date-strictly-increasing value history whose first value is
positive (as every reachable metrics history has), `calculate_max_drawdown`
returns `None` on fewer than two points, and otherwise returns exactly
`min((value - running_max(value)) / running_max(value))`, which is always
nonpositive and zero exactly when the value series is non-decreasing. -/
theorem max_drawdown_spec (m : PortfolioMetrics)
    (hSorted : m.value_history.Pairwise (fun a b => a.1 < b.1))
    (hpos : 0 < (m.value_history.map Prod.snd).headI) :
    (m.value_history.length < 2 → m.calculate_max_drawdown = none)
    ∧ (2 ≤ m.value_history.length →
        ∃ md, m.calculate_max_drawdown = some md
          ∧ listMin (drawdownFormula (m.value_history.map Prod.snd)) = some md
          ∧ md ≤ 0
          ∧ (md = 0 ↔ List.Chain' (· ≤ ·) (m.value_history.map Prod.snd))) := by
  constructor
  · intro hlen
    unfold PortfolioMetrics.calculate_max_drawdown PortfolioMetrics.get_values_series
    rw [if_pos hlen]
  · intro hlen
    have hser : m.get_values_series = some m.value_history := by
      unfold PortfolioMetrics.get_values_series
      rw [if_neg (not_lt.mpr hlen)]
      rw [dedupKeepLast_eq_self hSorted,
        sortByDate_eq_self (hSorted.imp (fun h => Nat.le_of_lt h))]
    rcases hhist : m.value_history with _ | ⟨a, rest⟩
    · rw [hhist] at hlen
      simp at hlen
    · have hmap : m.value_history.map Prod.snd = a.2 :: rest.map Prod.snd := by
        rw [hhist, List.map_cons]
      have hpos' : 0 < a.2 := by
        rw [hmap] at hpos
        simpa using hpos
      obtain ⟨md, hs1, hs2, hs3, hs4⟩ :=
        drawdown_core a.2 (rest.map Prod.snd) hpos'
      refine ⟨md, ?_, by rw [List.map_cons]; exact hs2, hs3,
        by rw [List.map_cons]; exact hs4⟩
      unfold PortfolioMetrics.calculate_max_drawdown
      rw [hser]
      dsimp only
      rw [if_neg (not_lt.mpr hlen), hmap, hs1]

/-- C9 witness: the drawdown specification at the concrete history
`[(0, 100), (1, 80), (2, 120)]`. -/
theorem max_drawdown_spec_witness :
    M2.value_history.Pairwise (fun a b => a.1 < b.1)
    ∧ 0 < (M2.value_history.map Prod.snd).headI
    ∧ ((M2.value_history.length < 2 → M2.calculate_max_drawdown = none)
      ∧ (2 ≤ M2.value_history.length →
          ∃ md, M2.calculate_max_drawdown = some md
            ∧ listMin (drawdownFormula (M2.value_history.map Prod.snd)) = some md
            ∧ md ≤ 0
            ∧ (md = 0 ↔
                List.Chain' (· ≤ ·) (M2.value_history.map Prod.snd)))) := by
  have h1 : M2.value_history.Pairwise (fun a b => a.1 < b.1) := by
    norm_num [M2, List.pairwise_cons]
  have h2 : 0 < (M2.value_history.map Prod.snd).headI := by
    norm_num [M2]
  exact ⟨h1, h2, max_drawdown_spec M2 h1 h2⟩

end QuantForge


